import Mathlib

/-!
Shallow embedding of `src/index.ts` of the xhr-hook library and proofs about
the claims of its specification.  Machine bytes are `Nat`s, byte buffers are
`List Nat`, JS objects with string keys are insertion-ordered association
lists, exceptions are `Except`, and the asynchronous state machine of
`startXhrWithResponseCallback` is a pure function from the responder outcome
and the stream's chunk list to the final per-instance state and the list of
dispatched events.
-/

namespace XhrHook

/-- Events dispatched by the emulation state machine via
`xhr.dispatchEvent(new Event(...))` in `startXhrWithResponseCallback`
(src/index.ts:253-325). -/
inductive Ev where
  | readystatechange
  | loadstart
  | progress (loaded : Nat)
  | load
  | error
  | loadend
deriving DecidableEq

/-- Slice of a fetch `Response` consumed by `startXhrWithResponseCallback`:
status, statusText, headers, final url, and the body as the list of chunks
its reader yields.  `body = none` models a null body, where
`response.body?.getReader()` is undefined and the streaming loop is skipped. -/
structure MResponse where
  status : Nat
  statusText : String
  headers : List (String × String)
  url : String
  body : Option (List (List Nat))
deriving DecidableEq

/-- Embedding of `PatchedXMLHttpRequestInstance` (src/index.ts:41-53), the
per-instance side record.  `abortGen` models the AbortController identity:
`open` aborts the current controller and installs a fresh one, modelled by
bumping the generation counter.  `headers` is the `Record<string, string>` as
an insertion-ordered association list (JS object key order for
non-integer-like string keys). -/
structure Patch where
  abortGen : Nat
  method : Option String
  url : Option String
  headers : List (String × String)
  readyState : Option Nat
  status : Option Nat
  statusText : Option String
  response : Option MResponse
  responseBufferInternal : Option (List Nat)
  responseBuffer : Option (List Nat)
  responseUrl : Option String
deriving DecidableEq

/-- A fresh `new PatchedXMLHttpRequestInstance()` (no emulated fields set). -/
def initialPatch : Patch :=
  { abortGen := 0, method := none, url := none, headers := [],
    readyState := none, status := none, statusText := none, response := none,
    responseBufferInternal := none, responseBuffer := none, responseUrl := none }

/-- Embedding of the JS assignment `record[k] = v` on a
`Record<string, string>` kept as an insertion-ordered association list: an
existing key keeps its position and receives the new value, a new key is
appended at the end.  This is the internal creation-order store; the
integer-like-key hoisting that JS applies when the record is enumerated by
`Object.entries` is modelled separately by `jsEntries` at the enumeration
site. -/
def recordSet (m : List (String × String)) (k v : String) : List (String × String) :=
  if m.any (fun p => p.1 == k) then
    m.map (fun p => if p.1 == k then (p.1, v) else p)
  else m ++ [(k, v)]

/-- Canonical array-index test of ECMAScript own-property ordering: a key is
integer-like when it is the canonical decimal form of some n < 2^32 - 1
("0", "7", "4012"; not "", "01", "+7", "x7").  Returns that n. -/
def canonicalIndex? (s : String) : Option Nat :=
  match s.data with
  | [] => none
  | c :: cs =>
    if (c :: cs).all Char.isDigit = true ∧ (c = '0' → cs = []) then
      let n := (c :: cs).foldl (fun acc ch => acc * 10 + (ch.toNat - 48)) 0
      if n < 4294967295 then some n else none
    else none

/-- Stable structural insertion of an entry into a list sorted by ascending
canonical index (keys reaching this point are all integer-like, with pairwise
distinct indices, so tie order is irrelevant). -/
def insertByIndex (p : String × String) :
    List (String × String) → List (String × String)
  | [] => [p]
  | q :: qs =>
    if (canonicalIndex? p.1).getD 0 ≤ (canonicalIndex? q.1).getD 0 then
      p :: q :: qs
    else q :: insertByIndex p qs

/-- Insertion sort of integer-like-keyed entries by ascending canonical
index. -/
def sortByIndex : List (String × String) → List (String × String)
  | [] => []
  | p :: ps => insertByIndex p (sortByIndex ps)

/-- Embedding of the own-property enumeration order that `Object.entries`
applies to a `Record<string, string>` (ECMAScript OrdinaryOwnPropertyKeys):
keys that are canonical array indices come first in ascending numeric order,
then the remaining string keys in creation (first-assignment) order. -/
def jsEntries (m : List (String × String)) : List (String × String) :=
  sortByIndex (m.filter (fun p => (canonicalIndex? p.1).isSome)) ++
    m.filter (fun p => !(canonicalIndex? p.1).isSome)

/-- Names of a capture sequence in first-occurrence order, given the names
already seen: exactly how keys accrue on a JS object under repeated
assignments. -/
def freshNames (seen : List String) : List String → List String
  | [] => []
  | k :: ks =>
    if seen.any (fun s => s == k) then freshNames seen ks
    else k :: freshNames (seen ++ [k]) ks

/-- Embedding of the `open` patch (src/index.ts:128-141): aborts the previous
controller, installs a fresh one, records method and url, and resets the
captured headers to `{}`, then forwards to the original `open`.  No other
field of the side record is touched. -/
def openPatch (p : Patch) (method url : String) : Patch :=
  { p with
    abortGen := p.abortGen + 1
    method := some method
    url := some url
    headers := [] }

/-- Embedding of the `setRequestHeader` patch (src/index.ts:142-152): stores
the header into the per-instance record (`patch.headers[header] = val`), then
forwards to the original method. -/
def setRequestHeaderPatch (p : Patch) (name value : String) : Patch :=
  { p with headers := recordSet p.headers name value }

/-- Headers captured by a sequence of `setRequestHeader` calls on a freshly
opened instance: `patch.headers = {}` at open, then one record assignment per
call. -/
def captureHeaders (calls : List (String × String)) : List (String × String) :=
  calls.foldl (fun m kv => recordSet m kv.1 kv.2) []

/-- Slice of the fetch `Request` built by `xhrToRequest` that the claims are
about.  `headers` lists the `(name, value)` pairs appended to the `Headers`
collection, in append order. -/
structure MRequest where
  url : String
  method : Option String
  headers : List (String × String)
deriving DecidableEq

/-- Embedding of `xhrToRequest` (src/index.ts:237-251): resolves
`patch.url || ""` against the document origin (`resolve` stands for
`new URL(_, location.origin).toString()`), and appends every entry of
`Object.entries(patch.headers)` — in JS own-property enumeration order,
integer-like keys hoisted first — to a fresh header collection. -/
def xhrToRequest (resolve : String → String) (p : Patch) : MRequest :=
  { url := resolve (p.url.getD ""), method := p.method,
    headers := jsEntries p.headers }

/-- Patched `readyState` getter (src/index.ts:74-76): the emulated value if
set, else the bound original getter. -/
def readyStateGetter (p : Patch) (native : Nat) : Nat :=
  p.readyState.getD native

/-- Patched `status` getter (src/index.ts:77-79). -/
def statusGetter (p : Patch) (native : Nat) : Nat :=
  p.status.getD native

/-- Patched `statusText` getter (src/index.ts:80-82). -/
def statusTextGetter (p : Patch) (native : String) : String :=
  p.statusText.getD native

/-- Patched `responseURL` getter (src/index.ts:115-117). -/
def responseURLGetter (p : Patch) (native : String) : String :=
  p.responseUrl.getD native

/-- Patched `responseText` getter (src/index.ts:118-126): when
`responseBufferInternal` is set it decodes the WHOLE internal buffer
(capacity included), not the `responseBuffer` prefix; otherwise it falls back
to the original getter. -/
def responseTextGetter (decode : List Nat → String) (p : Patch) (native : String) : String :=
  match p.responseBufferInternal with
  | some b => decode b
  | none => native

/-- Possible results of the patched `response` getter.  `native` stands for
delegation to the original getter; `δ` is the external XML-document type and
`γ` the external parsed-JSON type. -/
inductive RespValue (δ γ : Type) where
  | native
  | null
  | text (s : String)
  | arraybuffer (bytes : List Nat)
  | blob (bytes : List Nat)
  | document (d : δ)
  | json (j : γ)
deriving DecidableEq

/-- Patched `response` getter (src/index.ts:83-114).  The external helpers may
throw, modelled by `Except`: `decode` is `new TextDecoder().decode`,
`parseXml` is `new DOMParser().parseFromString(_, "application/xml")`,
`parseJson` is `JSON.parse`.  The switch's default branch yields null, and the
surrounding try/catch converts any thrown error into null. -/
def responseGetter {δ γ : Type} (decode : List Nat → Except Unit String)
    (parseXml : String → Except Unit δ) (parseJson : String → Except Unit γ)
    (responseType : String) (p : Patch) : RespValue δ γ :=
  match p.responseBuffer with
  | none => RespValue.native
  | some buffer =>
    let computed : Except Unit (RespValue δ γ) :=
      if responseType = "" ∨ responseType = "text" then
        (decode buffer).map RespValue.text
      else if responseType = "arraybuffer" then
        Except.ok (RespValue.arraybuffer buffer)
      else if responseType = "blob" then
        Except.ok (RespValue.blob buffer)
      else if responseType = "document" then
        match decode buffer with
        | Except.error e => Except.error e
        | Except.ok t => (parseXml t).map RespValue.document
      else if responseType = "json" then
        match decode buffer with
        | Except.error e => Except.error e
        | Except.ok t => (parseJson t).map RespValue.json
      else Except.ok RespValue.null
    match computed with
    | Except.ok v => v
    | Except.error _ => RespValue.null

/-- Concrete stand-in for `new TextDecoder().decode` on byte lists: one
character per byte (exact on the ASCII-range inputs used in the concrete
instances below). -/
def decodeBytes (bs : List Nat) : String :=
  String.mk (bs.map Char.ofNat)

/-- Outcome of the patched `send` (src/index.ts:153-176): either some hook's
responder took over (`startXhrWithResponseCallback` is started and the
original `send` is NOT called), or every hook declined and the original
`send` is applied to the forwarded body. -/
inductive SendOutcome (α β : Type) where
  | hooked (name : String) (responder : α)
  | original (body : β)
deriving DecidableEq

/-- Embedding of the dispatch loop of the patched `send`
(src/index.ts:159-174): trial the registered hooks in map iteration order
(insertion order); the first hook returning a responder wins and the loop
returns immediately; if all return undefined, forward to the original `send`.
Also returns the names of the hooks that were actually called, in call
order. -/
def sendDispatch {ρ α β : Type} (hooks : List (String × (ρ → Option α)))
    (req : ρ) (body : β) : SendOutcome α β × List String :=
  match hooks with
  | [] => (SendOutcome.original body, [])
  | (n, h) :: rest =>
    match h req with
    | some r => (SendOutcome.hooked n r, [n])
    | none =>
      let res := sendDispatch rest req body
      (res.1, n :: res.2)

/-- The `onExists` conflict policy of `insertXhrHook` (src/index.ts:330-333). -/
inductive OnExists where
  | replace
  | ignore
  | error
deriving DecidableEq

/-- Lookup of the handler registered under a name (`hooks.get`-like view of
the insertion-ordered registry). -/
def lookupHook {α : Type} (reg : List (String × α)) (name : String) : Option α :=
  (reg.find? (fun p => p.1 == name)).map Prod.snd

/-- Embedding of JS `Map.prototype.set` on the insertion-ordered registry: an
existing key keeps its insertion position and receives the new value, a new
key is appended. -/
def mapSet {α : Type} (reg : List (String × α)) (name : String) (hook : α) :
    List (String × α) :=
  if reg.any (fun p => p.1 == name) then
    reg.map (fun p => if p.1 == name then (p.1, hook) else p)
  else reg ++ [(name, hook)]

/-- Embedding of the registry mutation of `insertXhrHook`
(src/index.ts:340-364), state-passing style: returns the thrown error message
(if any) and the registry afterwards.  The `error` policy throws before
`hooks.set` runs, so the registry is returned unchanged in that branch. -/
def insertXhrHookRun {α : Type} (reg : List (String × α)) (name : String)
    (hook : α) (onExists : OnExists) : Option String × List (String × α) :=
  if reg.any (fun p => p.1 == name) then
    match onExists with
    | OnExists.error =>
      (some ("Hook with name \"" ++ name ++ "\" already exists."), reg)
    | OnExists.ignore => (none, reg)
    | OnExists.replace => (none, mapSet reg name hook)
  else (none, mapSet reg name hook)

/-- The patchable surface: the one-time marker `xhr[patchXhrKey]` and how many
times the full getter/method patch set has been applied to the prototype. -/
structure Surface where
  marker : Bool
  patchCount : Nat
deriving DecidableEq

/-- Embedding of `hookXhrIfNeeded` (src/index.ts:65-73): when the marker is
already present, log a warning and return without patching; otherwise set the
marker and apply the patch set once.  Returns the surface and the warning, if
one was logged. -/
def hookXhrIfNeeded (s : Surface) : Surface × Option String :=
  if s.marker then (s, some "XMLHttpRequest is already hooked, skipping.")
  else ({ marker := true, patchCount := s.patchCount + 1 }, none)

/-- Runs `hookXhrIfNeeded` `n` times (each `insertXhrHook` call triggers one
installation attempt, src/index.ts:345); returns the final surface and how
many already-hooked warnings were logged. -/
def installTimes (s : Surface) : Nat → Surface × Nat
  | 0 => (s, 0)
  | n + 1 =>
    let first := hookXhrIfNeeded s
    let rest := installTimes first.1 n
    (rest.1, (if first.2.isSome then 1 else 0) + rest.2)

/-- Embedding of `target.set(source, offset)` on Uint8Array contents: throws a
RangeError (modelled as `Except.error`) when the write would run past the end
of the target, otherwise overwrites bytes `offset..offset+source.length`. -/
def uset (target source : List Nat) (offset : Nat) : Except Unit (List Nat) :=
  if offset + source.length ≤ target.length then
    Except.ok (target.take offset ++ source ++ target.drop (offset + source.length))
  else Except.error ()

/-- Identity of the object `patch.responseBufferInternal` refers to during the
streaming loop: the object bound to the loop's `const buffer` local (they
alias after a non-growing append), or a fresh buffer allocated by a growing
append. -/
inductive IBuf where
  | toB0
  | fresh (data : List Nat)
deriving DecidableEq

/-- State of the streaming loop of `startXhrWithResponseCallback`
(src/index.ts:272-306).  `b0` is the contents of the object bound to the
`const buffer` local; writes through `responseBufferInternal` mutate it
exactly when the two alias (`IBuf.toB0`).  `respBuffer` is the published
`patch.responseBuffer`, snapshot of the subarray view — faithful because no
later write lands below the published offset: pre-growth writes land at
`offset` and beyond, post-growth writes land in fresh buffers. -/
structure ChunkSt where
  b0 : List Nat
  ibuf : Option IBuf
  offset : Nat
  respBuffer : Option (List Nat)
  events : List Ev
deriving DecidableEq

/-- Contents of the buffer `patch.responseBufferInternal` currently refers
to. -/
def curContents (st : ChunkSt) : Option (List Nat) :=
  match st.ibuf with
  | none => none
  | some IBuf.toB0 => some st.b0
  | some (IBuf.fresh d) => some d

/-- One iteration of the chunk loop (src/index.ts:284-304) for chunk `value`.
Note that the overflow check and the copy both use the stale `buffer` local
(`b0`), not the current internal buffer: `buffer` is `const` and is never
rebound after a growth.  Then the chunk is written at `offset`, `offset`
advances, `responseBuffer` is republished as the valid prefix, and a
readystatechange plus a progress event carrying the cumulative count fire. -/
def processChunk (st : ChunkSt) (value : List Nat) : Except Unit ChunkSt :=
  if st.offset + value.length > st.b0.length then
    match uset (List.replicate ((st.b0.length + value.length) * 2) 0) st.b0 0 with
    | Except.error e => Except.error e
    | Except.ok copied =>
      match uset copied value st.offset with
      | Except.error e => Except.error e
      | Except.ok written =>
        Except.ok { st with
          ibuf := some (IBuf.fresh written)
          offset := st.offset + value.length
          respBuffer := some (written.take (st.offset + value.length))
          events := st.events ++
            [Ev.readystatechange, Ev.progress (st.offset + value.length)] }
  else
    match uset st.b0 value st.offset with
    | Except.error e => Except.error e
    | Except.ok written =>
      Except.ok { st with
        b0 := written
        ibuf := some IBuf.toB0
        offset := st.offset + value.length
        respBuffer := some (written.take (st.offset + value.length))
        events := st.events ++
          [Ev.readystatechange, Ev.progress (st.offset + value.length)] }

/-- Runs the chunk loop over a list of chunks.  A thrown RangeError aborts the
loop; the state accumulated so far is kept (the JS exception propagates to the
catch clause of `startXhrWithResponseCallback`, which sees the patch fields
already published).  The boolean records whether the loop finished normally. -/
def runChunks : ChunkSt → List (List Nat) → ChunkSt × Bool
  | st, [] => (st, true)
  | st, c :: cs =>
    match processChunk st c with
    | Except.ok st' => runChunks st' cs
    | Except.error _ => (st, false)

/-- Observable intermediate states: the loop state after each successfully
appended chunk (the points at which readers can run between events). -/
def chunkStates : ChunkSt → List (List Nat) → List ChunkSt
  | _, [] => []
  | st, c :: cs =>
    match processChunk st c with
    | Except.ok st' => st' :: chunkStates st' cs
    | Except.error _ => []

/-- Embedding of JS `parseInt(s, 10)` restricted to what the code feeds it:
optional leading whitespace, then decimal digits; `none` models NaN.
(Negative content lengths are not modelled; no claim depends on them.) -/
def parseIntJs (s : String) : Option Nat :=
  let cs := (s.data.dropWhile (fun c => c = ' ')).takeWhile Char.isDigit
  if cs.isEmpty then none
  else some (cs.foldl (fun n c => n * 10 + (c.toNat - 48)) 0)

/-- ASCII lower-casing of a header name (header names are ASCII). -/
def lowerAscii (s : String) : String :=
  String.mk (s.data.map (fun c =>
    if 65 ≤ c.toNat ∧ c.toNat ≤ 90 then Char.ofNat (c.toNat + 32) else c))

/-- Embedding of fetch `Headers.prototype.get`: case-insensitive lookup of the
first matching header. -/
def headersGet (headers : List (String × String)) (name : String) : Option String :=
  (headers.find? (fun p => lowerAscii p.1 == lowerAscii name)).map Prod.snd

/-- Initial capacity of the stream buffer (src/index.ts:272-276):
`Content-Length` header if present and truthy (parsed base 10, NaN giving a
zero-length buffer), else 1 MiB. -/
def initialCapacity (headers : List (String × String)) : Nat :=
  match headersGet headers "Content-Length" with
  | none => 1024 * 1024
  | some v => if v = "" then 1024 * 1024 else (parseIntJs v).getD 0

/-- Loop state before the first chunk: a zero-filled buffer of the initial
capacity, nothing published yet. -/
def initialChunkSt (response : MResponse) : ChunkSt :=
  { b0 := List.replicate (initialCapacity response.headers) 0,
    ibuf := none, offset := 0, respBuffer := none, events := [] }

/-- The whole streaming phase for a response: skipped when the body is null,
else the chunk loop from the initial state. -/
def streamRun (response : MResponse) : ChunkSt × Bool :=
  match response.body with
  | none => (initialChunkSt response, true)
  | some chunks => runChunks (initialChunkSt response) chunks

/-- Embedding of `startXhrWithResponseCallback` (src/index.ts:253-325) as a
pure function of the responder's outcome.  Success path: readyState 1 and a
readystatechange; then headers (readyState 2, status, statusText, stored
response, loadstart); then the chunk loop; on normal loop exit the internal
buffer is trimmed to the final offset, readyState becomes 4, responseUrl is
set, and load, readystatechange, loadend fire in that order.  Any failure —
responder rejection (including abort) or an exception inside the loop — is
caught: readyState becomes 4 and error then readystatechange fire; nothing is
rethrown to the caller of `send` (the function is total and returns normally
in every case). -/
def startXhr (patch : Patch) (responderResult : Except Unit MResponse) :
    Patch × List Ev :=
  let p1 := { patch with readyState := some (1 : Nat) }
  match responderResult with
  | Except.error _ =>
    ({ p1 with readyState := some 4 },
     [Ev.readystatechange, Ev.error, Ev.readystatechange])
  | Except.ok response =>
    let p2 := { p1 with
                readyState := some 2
                status := some response.status
                statusText := some response.statusText
                response := some response }
    let st := (streamRun response).1
    if (streamRun response).2 then
      ({ p2 with
          responseBufferInternal := (curContents st).map (fun d => d.take st.offset)
          responseBuffer := st.respBuffer
          readyState := some 4
          responseUrl := some response.url },
       [Ev.readystatechange, Ev.loadstart] ++ st.events ++
         [Ev.load, Ev.readystatechange, Ev.loadend])
    else
      ({ p2 with
          responseBufferInternal := curContents st
          responseBuffer := st.respBuffer
          readyState := some 4 },
       [Ev.readystatechange, Ev.loadstart] ++ st.events ++
         [Ev.error, Ev.readystatechange])

/-- Invariant of the streaming loop state: every event logged so far is a
readystatechange or a progress event, and the published `responseBuffer` is
exactly the prefix `0..offset` of the buffer `responseBufferInternal` refers
to (and absent before the first append). -/
def stInv (st : ChunkSt) : Prop :=
  (∀ e ∈ st.events, e = Ev.readystatechange ∨ ∃ n, e = Ev.progress n) ∧
  (match curContents st with
   | none => st.offset = 0 ∧ st.respBuffer = none
   | some d => st.offset ≤ d.length ∧ st.respBuffer = some (d.take st.offset))

/-- First value bound to a name in an association list: how the record (one
value per key) is read back. -/
def headerLookup (m : List (String × String)) (k : String) : Option String :=
  (m.find? (fun p => p.1 == k)).map Prod.snd

/-- Value of the last `setRequestHeader` call for a given name in a capture
sequence, if the name was ever set. -/
def lastValue (calls : List (String × String)) (k : String) : Option String :=
  ((calls.filter (fun p => p.1 == k)).getLast?).map Prod.snd

/-- Concrete capture sequence that sets the same header name twice. -/
def dupHeaderCalls : List (String × String) := [("X-A", "1"), ("X-A", "2")]

/-- Per-instance state after opening a fresh instance and replaying
`dupHeaderCalls` through the `setRequestHeader` patch. -/
def dupHeaderPatch : Patch :=
  dupHeaderCalls.foldl (fun p kv => setRequestHeaderPatch p kv.1 kv.2)
    (openPatch initialPatch "GET" "https://example.com")

/-- Concrete capture sequence with pairwise distinct names, one of which is
integer-like ("7" is a legal header token and a canonical array index). -/
def hoistHeaderCalls : List (String × String) := [("X-A", "1"), ("7", "2")]

/-- Per-instance state after opening a fresh instance and replaying
`hoistHeaderCalls` through the `setRequestHeader` patch. -/
def hoistHeaderPatch : Patch :=
  hoistHeaderCalls.foldl (fun p kv => setRequestHeaderPatch p kv.1 kv.2)
    (openPatch initialPatch "GET" "https://example.com")

/-- Concrete response exercising the buffer-growth path twice: declared
content length 10, then chunks of 8, 8 and 2 bytes (the second and third
appends both overflow the stale 10-byte `buffer` local). -/
def growthResponse : MResponse :=
  { status := 200, statusText := "OK", headers := [("content-length", "10")],
    url := "https://example.com/data",
    body := some [List.replicate 8 1, List.replicate 8 2, [3, 3]] }

/-- Concrete response for observing a mid-stream read: declared content
length 4, a single two-byte chunk "Hi" (0x48 0x69). -/
def midStreamResponse : MResponse :=
  { status := 200, statusText := "OK", headers := [("content-length", "4")],
    url := "https://example.com/hi", body := some [[72, 105]] }

/-- Loop state after the single chunk of `midStreamResponse` (the point at
which progress listeners run, before completion trims the buffer). -/
def midStreamSt : ChunkSt := (streamRun midStreamResponse).1

/-- The per-instance state a reader sees at that mid-stream point: the fields
the chunk loop has published so far. -/
def midStreamPatch : Patch :=
  { initialPatch with
    responseBufferInternal := curContents midStreamSt
    responseBuffer := midStreamSt.respBuffer
    readyState := some 3 }

/-- A hook that declines every request. -/
def hookNone : Nat → Option Nat := fun _ => none

/-- A hook that answers every request with responder `7`. -/
def hookSome : Nat → Option Nat := fun _ => some 7

/-- A decoder that never throws (concrete `TextDecoder` stand-in). -/
def decodeOkX : List Nat → Except Unit String := fun bs => Except.ok (decodeBytes bs)

/-- A decoder that always throws. -/
def decodeFailX : List Nat → Except Unit String := fun _ => Except.error ()

/-- A parser (XML or JSON) that always fails. -/
def parseFailX : String → Except Unit Unit := fun _ => Except.error ()

/-- A parser that succeeds, returning the input text as the parsed value. -/
def parseOkX : String → Except Unit String := fun t => Except.ok t

theorem uset_ok_iff (target source : List Nat) (off : Nat) (r : List Nat)
    (h : uset target source off = Except.ok r) :
    off + source.length ≤ target.length ∧
      r = target.take off ++ source ++ target.drop (off + source.length) := by
  unfold uset at h
  split at h
  · exact ⟨by assumption, by injection h with h'; exact h'.symm⟩
  · simp at h

theorem uset_ok_length (target source : List Nat) (off : Nat) (r : List Nat)
    (h : uset target source off = Except.ok r) : r.length = target.length := by
  obtain ⟨hle, hr⟩ := uset_ok_iff target source off r h
  subst hr
  simp only [List.length_append, List.length_take, List.length_drop]
  omega

theorem events_inv_append (evs : List Ev) (n : Nat)
    (hev : ∀ e ∈ evs, e = Ev.readystatechange ∨ ∃ m, e = Ev.progress m) :
    ∀ e ∈ evs ++ [Ev.readystatechange, Ev.progress n],
      e = Ev.readystatechange ∨ ∃ m, e = Ev.progress m := by
  intro e he
  rcases List.mem_append.mp he with he | he
  · exact hev e he
  · rcases List.mem_cons.mp he with he | he
    · exact Or.inl he
    · simp only [List.mem_singleton] at he
      exact Or.inr ⟨n, he⟩

theorem processChunk_inv (st st' : ChunkSt) (value : List Nat)
    (h : processChunk st value = Except.ok st') (hinv : stInv st) : stInv st' := by
  obtain ⟨hev, _⟩ := hinv
  unfold processChunk at h
  by_cases hov : st.offset + value.length > st.b0.length
  · rw [if_pos hov] at h
    cases hcopied : uset (List.replicate ((st.b0.length + value.length) * 2) 0) st.b0 0 with
    | error e =>
      simp only [hcopied] at h
      exact Except.noConfusion h
    | ok copied =>
      simp only [hcopied] at h
      cases hwritten : uset copied value st.offset with
      | error e =>
        simp only [hwritten] at h
        exact Except.noConfusion h
      | ok written =>
        simp only [hwritten] at h
        injection h with h
        subst h
        refine ⟨events_inv_append st.events _ hev, ?_⟩
        have h1 := (uset_ok_iff copied value st.offset written hwritten).1
        have h2 := uset_ok_length copied value st.offset written hwritten
        show st.offset + value.length ≤ written.length ∧
          some (written.take (st.offset + value.length)) =
            some (written.take (st.offset + value.length))
        exact ⟨by omega, rfl⟩
  · rw [if_neg hov] at h
    cases hwritten : uset st.b0 value st.offset with
    | error e =>
      simp only [hwritten] at h
      exact Except.noConfusion h
    | ok written =>
      simp only [hwritten] at h
      injection h with h
      subst h
      refine ⟨events_inv_append st.events _ hev, ?_⟩
      have h1 := (uset_ok_iff st.b0 value st.offset written hwritten).1
      have h2 := uset_ok_length st.b0 value st.offset written hwritten
      show st.offset + value.length ≤ written.length ∧
        some (written.take (st.offset + value.length)) =
          some (written.take (st.offset + value.length))
      exact ⟨by omega, rfl⟩

theorem runChunks_inv (cs : List (List Nat)) (st : ChunkSt) (hinv : stInv st) :
    stInv (runChunks st cs).1 := by
  induction cs generalizing st with
  | nil => simpa [runChunks]
  | cons c cs ih =>
    cases hc : processChunk st c with
    | ok st' =>
      simp only [runChunks, hc]
      exact ih st' (processChunk_inv st st' c hc hinv)
    | error e =>
      simp only [runChunks, hc]
      exact hinv

theorem chunkStates_inv (cs : List (List Nat)) (st : ChunkSt) (hinv : stInv st) :
    ∀ s ∈ chunkStates st cs, stInv s := by
  induction cs generalizing st with
  | nil => simp [chunkStates]
  | cons c cs ih =>
    cases hc : processChunk st c with
    | ok st' =>
      simp only [chunkStates, hc]
      intro s hs
      rcases List.mem_cons.mp hs with hs | hs
      · exact hs ▸ processChunk_inv st st' c hc hinv
      · exact ih st' (processChunk_inv st st' c hc hinv) s hs
    | error e =>
      simp [chunkStates, hc]

theorem stInv_initial (response : MResponse) : stInv (initialChunkSt response) := by
  constructor
  · simp [initialChunkSt]
  · simp [initialChunkSt, curContents]

theorem streamRun_inv (response : MResponse) : stInv (streamRun response).1 := by
  unfold streamRun
  cases hb : response.body with
  | none => exact stInv_initial response
  | some chunks => exact runChunks_inv chunks _ (stInv_initial response)

theorem recordSet_not_mem (m : List (String × String)) (k v : String)
    (h : m.any (fun p => p.1 == k) = false) : recordSet m k v = m ++ [(k, v)] := by
  unfold recordSet
  simp [h]

theorem foldl_recordSet_disjoint (calls : List (String × String)) :
    ∀ acc : List (String × String), (calls.map Prod.fst).Nodup →
      (∀ kv ∈ calls, acc.any (fun p => p.1 == kv.1) = false) →
      calls.foldl (fun m kv => recordSet m kv.1 kv.2) acc = acc ++ calls := by
  induction calls with
  | nil =>
    intro acc _ _
    simp
  | cons kv rest ih =>
    intro acc hnd hdis
    have hnd' : (rest.map Prod.fst).Nodup := by
      simp only [List.map_cons, List.nodup_cons] at hnd
      exact hnd.2
    have hk1 : kv.1 ∉ rest.map Prod.fst := by
      simp only [List.map_cons, List.nodup_cons] at hnd
      exact hnd.1
    have hdis' : ∀ kv' ∈ rest, (acc ++ [(kv.1, kv.2)]).any (fun p => p.1 == kv'.1) = false := by
      intro kv' hkv'
      rw [List.any_append]
      simp only [Bool.or_eq_false_iff]
      refine ⟨hdis kv' (List.mem_cons_of_mem _ hkv'), ?_⟩
      simp only [List.any_cons, List.any_nil, Bool.or_false]
      have hne : kv.1 ≠ kv'.1 :=
        fun heq => hk1 (heq ▸ List.mem_map_of_mem Prod.fst hkv')
      exact beq_eq_false_iff_ne.mpr hne
    simp only [List.foldl_cons]
    rw [recordSet_not_mem acc kv.1 kv.2 (hdis kv (List.mem_cons_self _ _))]
    rw [ih (acc ++ [(kv.1, kv.2)]) hnd' hdis']
    simp

theorem captureHeaders_eq_of_nodup (calls : List (String × String))
    (h : (calls.map Prod.fst).Nodup) : captureHeaders calls = calls := by
  unfold captureHeaders
  simpa using foldl_recordSet_disjoint calls [] h (by simp)

theorem foldl_setRequestHeader_headers (calls : List (String × String)) :
    ∀ p : Patch,
      (calls.foldl (fun q kv => setRequestHeaderPatch q kv.1 kv.2) p).headers =
        calls.foldl (fun m kv => recordSet m kv.1 kv.2) p.headers := by
  induction calls with
  | nil => intro p; rfl
  | cons kv rest ih =>
    intro p
    simp only [List.foldl_cons]
    rw [ih]
    rfl

theorem headerLookup_recordSet (m : List (String × String)) (k₀ v k : String) :
    headerLookup (recordSet m k₀ v) k = if k₀ = k then some v else headerLookup m k := by
  unfold recordSet headerLookup
  by_cases hmem : m.any (fun p => p.1 == k₀) = true
  · rw [if_pos hmem]
    rw [List.find?_map]
    have hpred : ((fun q : String × String => q.1 == k) ∘
        (fun p : String × String => if p.1 == k₀ then (p.1, v) else p)) =
        (fun p : String × String => p.1 == k) := by
      funext p
      by_cases h : (p.1 == k₀) = true <;> simp [Function.comp, h]
    rw [hpred]
    cases hf : m.find? (fun p => p.1 == k) with
    | none =>
      have hnone : ∀ p ∈ m, ¬(p.1 == k) = true := List.find?_eq_none.mp hf
      by_cases hk : k₀ = k
      · exfalso
        obtain ⟨p, hp, hpk⟩ := List.any_eq_true.mp hmem
        subst hk
        exact hnone p hp hpk
      · simp [hk]
    | some e =>
      have hek : (e.1 == k) = true := by
        have h2 := List.find?_some hf
        simpa using h2
      by_cases hk : k₀ = k
      · subst hk
        have he : e.1 = k₀ := by simpa using hek
        simp [he]
      · rw [if_neg hk]
        have hne : ¬ e.1 = k₀ := by
          have he : e.1 = k := by simpa using hek
          rw [he]
          exact fun hc => hk hc.symm
        simp [hne]
  · rw [if_neg hmem]
    rw [List.find?_append]
    by_cases hk : k₀ = k
    · subst hk
      have hfm : m.find? (fun p => p.1 == k₀) = none := by
        rw [List.find?_eq_none]
        intro p hp hpk
        exact hmem (List.any_eq_true.mpr ⟨p, hp, hpk⟩)
      rw [hfm]
      simp
    · cases hf : m.find? (fun p => p.1 == k) with
      | some e => simp [hk]
      | none => simp [List.find?, beq_eq_false_iff_ne.mpr hk, hk]

theorem lastValue_cons_pos (kv : String × String) (rest : List (String × String))
    (k : String) (h : kv.1 = k) :
    lastValue (kv :: rest) k = (lastValue rest k).or (some kv.2) := by
  unfold lastValue
  rw [List.filter_cons]
  simp only [h, beq_self_eq_true, if_true]
  cases hfr : rest.filter (fun p => p.1 == k) with
  | nil => simp
  | cons b l =>
    rw [List.getLast?_cons_cons]
    have hs : ((b :: l).getLast?).isSome := List.getLast?_isSome.mpr (by simp)
    obtain ⟨x, hx⟩ := Option.isSome_iff_exists.mp hs
    simp [hx]

theorem lastValue_cons_neg (kv : String × String) (rest : List (String × String))
    (k : String) (h : ¬ kv.1 = k) :
    lastValue (kv :: rest) k = lastValue rest k := by
  unfold lastValue
  rw [List.filter_cons]
  simp [h]

theorem headerLookup_foldl (calls : List (String × String)) :
    ∀ (acc : List (String × String)) (k : String),
      headerLookup (calls.foldl (fun m kv => recordSet m kv.1 kv.2) acc) k =
        (lastValue calls k).or (headerLookup acc k) := by
  induction calls with
  | nil =>
    intro acc k
    simp [lastValue]
  | cons kv rest ih =>
    intro acc k
    simp only [List.foldl_cons]
    rw [ih (recordSet acc kv.1 kv.2) k, headerLookup_recordSet]
    by_cases hk : kv.1 = k
    · rw [lastValue_cons_pos kv rest k hk, if_pos hk]
      cases lastValue rest k <;> simp
    · rw [lastValue_cons_neg kv rest k hk, if_neg hk]

theorem headerLookup_captureHeaders (calls : List (String × String)) (k : String) :
    headerLookup (captureHeaders calls) k = lastValue calls k := by
  unfold captureHeaders
  rw [headerLookup_foldl]
  cases lastValue calls k <;> simp [headerLookup]

theorem any_keys_eq (m : List (String × String)) (k : String) :
    (m.map Prod.fst).any (fun s => s == k) = m.any (fun p => p.1 == k) := by
  induction m with
  | nil => rfl
  | cons q qs ih => simp [ih]

theorem recordSet_keys (m : List (String × String)) (k v : String) :
    (recordSet m k v).map Prod.fst =
      if m.any (fun p => p.1 == k) then m.map Prod.fst
      else m.map Prod.fst ++ [k] := by
  unfold recordSet
  by_cases h : m.any (fun p => p.1 == k) = true
  · rw [if_pos h, if_pos h, List.map_map]
    congr 1
    funext p
    by_cases hp : (p.1 == k) = true <;> simp [Function.comp, hp]
  · rw [if_neg h, if_neg h]
    simp

theorem freshNames_cons (seen : List String) (k : String) (ks : List String) :
    freshNames seen (k :: ks) =
      if seen.any (fun s => s == k) then freshNames seen ks
      else k :: freshNames (seen ++ [k]) ks := rfl

theorem foldl_recordSet_keys (calls : List (String × String)) :
    ∀ m : List (String × String),
      (calls.foldl (fun acc kv => recordSet acc kv.1 kv.2) m).map Prod.fst =
        m.map Prod.fst ++ freshNames (m.map Prod.fst) (calls.map Prod.fst) := by
  induction calls with
  | nil =>
    intro m
    simp [freshNames]
  | cons kv rest ih =>
    intro m
    simp only [List.foldl_cons, List.map_cons]
    rw [ih (recordSet m kv.1 kv.2), recordSet_keys, freshNames_cons]
    by_cases h : m.any (fun p => p.1 == kv.1) = true
    · have hseen : (m.map Prod.fst).any (fun s => s == kv.1) = true := by
        rw [any_keys_eq]
        exact h
      rw [if_pos h, if_pos hseen]
    · have hseen : ¬ (m.map Prod.fst).any (fun s => s == kv.1) = true := by
        rw [any_keys_eq]
        exact h
      rw [if_neg h, if_neg hseen]
      simp

theorem freshNames_not_seen (ks : List String) :
    ∀ seen, ∀ k ∈ freshNames seen ks, seen.any (fun s => s == k) = false := by
  induction ks with
  | nil =>
    intro seen k hk
    simp [freshNames] at hk
  | cons k0 ks ih =>
    intro seen k hk
    unfold freshNames at hk
    by_cases h0 : seen.any (fun s => s == k0) = true
    · rw [if_pos h0] at hk
      exact ih seen k hk
    · rw [if_neg h0] at hk
      rcases List.mem_cons.mp hk with rfl | hk
      · rw [Bool.not_eq_true] at h0
        exact h0
      · have h1 := ih (seen ++ [k0]) k hk
        rw [List.any_append] at h1
        exact (Bool.or_eq_false_iff.mp h1).1

theorem freshNames_nodup (ks : List String) : ∀ seen, (freshNames seen ks).Nodup := by
  induction ks with
  | nil =>
    intro seen
    simp [freshNames]
  | cons k0 ks ih =>
    intro seen
    unfold freshNames
    by_cases h0 : seen.any (fun s => s == k0) = true
    · rw [if_pos h0]
      exact ih seen
    · rw [if_neg h0]
      refine List.nodup_cons.mpr ⟨?_, ih (seen ++ [k0])⟩
      intro hmem
      have h1 := freshNames_not_seen ks (seen ++ [k0]) k0 hmem
      rw [List.any_append] at h1
      have h2 := (Bool.or_eq_false_iff.mp h1).2
      simp at h2

theorem mem_freshNames (ks : List String) :
    ∀ seen k, k ∈ freshNames seen ks ↔
      (k ∈ ks ∧ seen.any (fun s => s == k) = false) := by
  induction ks with
  | nil =>
    intro seen k
    simp [freshNames]
  | cons k0 ks ih =>
    intro seen k
    unfold freshNames
    by_cases h0 : seen.any (fun s => s == k0) = true
    · rw [if_pos h0, ih]
      constructor
      · rintro ⟨hk, hs⟩
        exact ⟨List.mem_cons_of_mem _ hk, hs⟩
      · rintro ⟨hk, hs⟩
        rcases List.mem_cons.mp hk with rfl | hk
        · rw [h0] at hs
          exact absurd hs (by simp)
        · exact ⟨hk, hs⟩
    · rw [if_neg h0]
      constructor
      · intro hk
        rcases List.mem_cons.mp hk with rfl | hk
        · refine ⟨List.mem_cons_self _ _, ?_⟩
          rw [Bool.not_eq_true] at h0
          exact h0
        · obtain ⟨h1, h2⟩ := (ih (seen ++ [k0]) k).mp hk
          rw [List.any_append] at h2
          exact ⟨List.mem_cons_of_mem _ h1, (Bool.or_eq_false_iff.mp h2).1⟩
      · rintro ⟨hk, hs⟩
        rcases List.mem_cons.mp hk with rfl | hk
        · exact List.mem_cons_self _ _
        · by_cases hkk0 : k = k0
          · subst hkk0
            exact List.mem_cons_self _ _
          · refine List.mem_cons_of_mem _ ((ih (seen ++ [k0]) k).mpr ⟨hk, ?_⟩)
            rw [List.any_append, hs]
            simp only [Bool.false_or, List.any_cons, List.any_nil, Bool.or_false]
            exact beq_eq_false_iff_ne.mpr (fun hc => hkk0 hc.symm)

theorem mem_iff_headerLookup :
    ∀ m : List (String × String), (m.map Prod.fst).Nodup →
      ∀ k v, ((k, v) ∈ m ↔ headerLookup m k = some v) := by
  intro m
  induction m with
  | nil =>
    intro _ k v
    simp [headerLookup]
  | cons q qs ih =>
    intro hnd k v
    obtain ⟨q1, q2⟩ := q
    rw [List.map_cons, List.nodup_cons] at hnd
    by_cases hk : q1 = k
    · subst hk
      have hf : List.find? (fun p : String × String => p.1 == q1) ((q1, q2) :: qs) =
          some (q1, q2) :=
        List.find?_cons_of_pos qs (by simp)
      constructor
      · intro hm
        rcases List.mem_cons.mp hm with hm | hm
        · unfold headerLookup
          rw [hf]
          injection hm with h1 h2
          simp [h2]
        · exact absurd (List.mem_map_of_mem Prod.fst hm) hnd.1
      · intro hl
        unfold headerLookup at hl
        rw [hf] at hl
        simp at hl
        subst hl
        exact List.mem_cons_self _ _
    · have hf : List.find? (fun p : String × String => p.1 == k) ((q1, q2) :: qs) =
          List.find? (fun p : String × String => p.1 == k) qs :=
        List.find?_cons_of_neg qs (by simp [hk])
      constructor
      · intro hm
        rcases List.mem_cons.mp hm with hm | hm
        · injection hm with h1 h2
          exact absurd h1.symm hk
        · unfold headerLookup
          rw [hf]
          exact (ih hnd.2 k v).mp hm
      · intro hl
        unfold headerLookup at hl
        rw [hf] at hl
        exact List.mem_cons_of_mem _ ((ih hnd.2 k v).mpr hl)

theorem insertByIndex_perm (p : String × String) (l : List (String × String)) :
    List.Perm (insertByIndex p l) (p :: l) := by
  induction l with
  | nil => exact List.Perm.refl _
  | cons q qs ih =>
    unfold insertByIndex
    split
    · exact List.Perm.refl _
    · exact (List.Perm.cons q ih).trans (List.Perm.swap p q qs)

theorem sortByIndex_perm (l : List (String × String)) :
    List.Perm (sortByIndex l) l := by
  induction l with
  | nil => exact List.Perm.refl _
  | cons p ps ih =>
    unfold sortByIndex
    exact (insertByIndex_perm p (sortByIndex ps)).trans (List.Perm.cons p ih)

theorem jsEntries_perm (m : List (String × String)) :
    List.Perm (jsEntries m) m := by
  unfold jsEntries
  have h1 := sortByIndex_perm (m.filter (fun p => (canonicalIndex? p.1).isSome))
  have h2 := List.filter_append_perm
    (fun p : String × String => (canonicalIndex? p.1).isSome) m
  exact (h1.append_right _).trans h2

theorem jsEntries_of_no_index (m : List (String × String))
    (h : ∀ p ∈ m, canonicalIndex? p.1 = none) : jsEntries m = m := by
  unfold jsEntries
  have h1 : m.filter (fun p => (canonicalIndex? p.1).isSome) = [] := by
    rw [List.filter_eq_nil_iff]
    intro p hp
    simp [h p hp]
  have h2 : m.filter (fun p => !(canonicalIndex? p.1).isSome) = m := by
    rw [List.filter_eq_self]
    intro p hp
    simp [h p hp]
  rw [h1, h2]
  rfl

theorem sendDispatch_all_none {ρ α β : Type} (hooks : List (String × (ρ → Option α)))
    (req : ρ) (body : β) (hall : ∀ p ∈ hooks, p.2 req = none) :
    sendDispatch hooks req body = (SendOutcome.original body, hooks.map Prod.fst) := by
  induction hooks with
  | nil => rfl
  | cons ph rest ih =>
    obtain ⟨n, h⟩ := ph
    have hn : h req = none := hall (n, h) (List.mem_cons_self _ _)
    simp only [sendDispatch, hn]
    rw [ih (fun q hq => hall q (List.mem_cons_of_mem _ hq))]
    simp

theorem sendDispatch_first_some {ρ α β : Type} (pre post : List (String × (ρ → Option α)))
    (n : String) (h : ρ → Option α) (req : ρ) (body : β) (r : α)
    (hpre : ∀ p ∈ pre, p.2 req = none) (hr : h req = some r) :
    sendDispatch (pre ++ (n, h) :: post) req body =
      (SendOutcome.hooked n r, pre.map Prod.fst ++ [n]) := by
  induction pre with
  | nil =>
    simp only [List.nil_append, sendDispatch, hr]
    simp
  | cons ph rest ih =>
    obtain ⟨n', h'⟩ := ph
    have hn' : h' req = none := hpre (n', h') (List.mem_cons_self _ _)
    simp only [List.cons_append, sendDispatch, hn', List.append_eq]
    rw [ih (fun q hq => hpre q (List.mem_cons_of_mem _ hq))]
    simp

theorem processChunk_ibuf (st st' : ChunkSt) (value : List Nat)
    (h : processChunk st value = Except.ok st') : st'.ibuf.isSome := by
  unfold processChunk at h
  by_cases hov : st.offset + value.length > st.b0.length
  · rw [if_pos hov] at h
    cases hcopied : uset (List.replicate ((st.b0.length + value.length) * 2) 0) st.b0 0 with
    | error e =>
      simp only [hcopied] at h
      exact Except.noConfusion h
    | ok copied =>
      simp only [hcopied] at h
      cases hwritten : uset copied value st.offset with
      | error e =>
        simp only [hwritten] at h
        exact Except.noConfusion h
      | ok written =>
        simp only [hwritten] at h
        injection h with h
        subst h
        rfl
  · rw [if_neg hov] at h
    cases hwritten : uset st.b0 value st.offset with
    | error e =>
      simp only [hwritten] at h
      exact Except.noConfusion h
    | ok written =>
      simp only [hwritten] at h
      injection h with h
      subst h
      rfl

theorem chunkStates_ibuf (cs : List (List Nat)) (st : ChunkSt) :
    ∀ s ∈ chunkStates st cs, s.ibuf.isSome := by
  induction cs generalizing st with
  | nil => simp [chunkStates]
  | cons c cs ih =>
    cases hc : processChunk st c with
    | ok st' =>
      simp only [chunkStates, hc]
      intro s hs
      rcases List.mem_cons.mp hs with hs | hs
      · exact hs ▸ processChunk_ibuf st st' c hc
      · exact ih st' s hs
    | error e => simp [chunkStates, hc]

theorem installTimes_marked (n : Nat) (s : Surface) (hm : s.marker = true) :
    installTimes s n = (s, n) := by
  induction n with
  | zero => rfl
  | succ k ih =>
    simp only [installTimes, hookXhrIfNeeded, hm, if_true, ih]
    simp [Nat.add_comm]

/-- C1 counterexample: the claim fails in two independent ways.  Capturing
the same name twice collapses to a single entry holding the last value (the
record assignment overwrites), and even with pairwise distinct names an
integer-like name such as "7" — a legal header token — is hoisted ahead of
earlier captures by JS own-property enumeration, so the Request does not list
the captured headers in capture order. -/
theorem c1_headers_counterexample :
    (xhrToRequest id dupHeaderPatch).headers = [("X-A", "2")] ∧
    (xhrToRequest id dupHeaderPatch).headers ≠ [("X-A", "1"), ("X-A", "2")] ∧
    (hoistHeaderCalls.map Prod.fst).Nodup ∧
    (xhrToRequest id hoistHeaderPatch).headers = [("7", "2"), ("X-A", "1")] ∧
    (xhrToRequest id hoistHeaderPatch).headers ≠ hoistHeaderCalls := by
  refine ⟨?_, ?_, ?_, ?_, ?_⟩
  · decide
  · decide
  · decide
  · decide
  · decide

/-- C1 (amended): for every capture sequence on a freshly opened instance,
the per-instance header record holds exactly one entry per distinct captured
name — its key list is the captured names in first-capture order, without
duplicates — and looking any name up yields the value of the LAST capture for
it.  The canonical Request built at send time lists exactly these entries in
JS own-property enumeration order (integer-like names hoisted first, the rest
in first-capture order): it holds one entry per distinct captured name with
the last captured value and no duplicate name; when no captured name is
integer-like it reproduces the record's first-capture order exactly, and
hence the full capture sequence whenever no name is repeated either. -/
theorem c1_headers_capture (resolve : String → String) (p0 : Patch) (m u : String)
    (calls : List (String × String)) :
    (captureHeaders calls).map Prod.fst = freshNames [] (calls.map Prod.fst) ∧
    ((captureHeaders calls).map Prod.fst).Nodup ∧
    (∀ k, k ∈ (captureHeaders calls).map Prod.fst ↔ k ∈ calls.map Prod.fst) ∧
    (∀ k, headerLookup (captureHeaders calls) k = lastValue calls k) ∧
    (xhrToRequest resolve (calls.foldl (fun q kv => setRequestHeaderPatch q kv.1 kv.2)
        (openPatch p0 m u))).headers = jsEntries (captureHeaders calls) ∧
    (∀ k v, ((k, v) ∈ (xhrToRequest resolve (calls.foldl
        (fun q kv => setRequestHeaderPatch q kv.1 kv.2) (openPatch p0 m u))).headers ↔
      lastValue calls k = some v)) ∧
    ((xhrToRequest resolve (calls.foldl (fun q kv => setRequestHeaderPatch q kv.1 kv.2)
        (openPatch p0 m u))).headers.map Prod.fst).Nodup ∧
    ((∀ k ∈ calls.map Prod.fst, canonicalIndex? k = none) →
      (xhrToRequest resolve (calls.foldl (fun q kv => setRequestHeaderPatch q kv.1 kv.2)
          (openPatch p0 m u))).headers = captureHeaders calls ∧
      ((calls.map Prod.fst).Nodup →
        (xhrToRequest resolve (calls.foldl (fun q kv => setRequestHeaderPatch q kv.1 kv.2)
            (openPatch p0 m u))).headers = calls)) := by
  have hkeys : (captureHeaders calls).map Prod.fst =
      freshNames [] (calls.map Prod.fst) := by
    unfold captureHeaders
    simpa using foldl_recordSet_keys calls []
  have hnd : ((captureHeaders calls).map Prod.fst).Nodup := by
    rw [hkeys]
    exact freshNames_nodup (calls.map Prod.fst) []
  have hpipe : (calls.foldl (fun q kv => setRequestHeaderPatch q kv.1 kv.2)
      (openPatch p0 m u)).headers = captureHeaders calls := by
    rw [foldl_setRequestHeader_headers]
    rfl
  have hreq : (xhrToRequest resolve (calls.foldl
      (fun q kv => setRequestHeaderPatch q kv.1 kv.2) (openPatch p0 m u))).headers =
      jsEntries (captureHeaders calls) := by
    show jsEntries (calls.foldl (fun q kv => setRequestHeaderPatch q kv.1 kv.2)
        (openPatch p0 m u)).headers = jsEntries (captureHeaders calls)
    rw [hpipe]
  have hperm : List.Perm (jsEntries (captureHeaders calls)) (captureHeaders calls) :=
    jsEntries_perm (captureHeaders calls)
  refine ⟨hkeys, hnd, ?_, headerLookup_captureHeaders calls, hreq, ?_, ?_, ?_⟩
  · intro k
    rw [hkeys, mem_freshNames (calls.map Prod.fst) [] k]
    simp
  · intro k v
    rw [hreq, hperm.mem_iff,
      mem_iff_headerLookup (captureHeaders calls) hnd k v,
      headerLookup_captureHeaders]
  · rw [hreq]
    exact (List.Perm.nodup_iff (hperm.map Prod.fst)).mpr hnd
  · intro hni
    have hnoidx : ∀ p ∈ captureHeaders calls, canonicalIndex? p.1 = none := by
      intro p hp
      apply hni
      have hm : p.1 ∈ (captureHeaders calls).map Prod.fst :=
        List.mem_map_of_mem Prod.fst hp
      rw [hkeys, mem_freshNames (calls.map Prod.fst) [] p.1] at hm
      exact hm.1
    have heq : (xhrToRequest resolve (calls.foldl
        (fun q kv => setRequestHeaderPatch q kv.1 kv.2) (openPatch p0 m u))).headers =
        captureHeaders calls := by
      rw [hreq, jsEntries_of_no_index (captureHeaders calls) hnoidx]
    refine ⟨heq, ?_⟩
    intro hnodup
    rw [heq, captureHeaders_eq_of_nodup calls hnodup]

/-- C1 witness: two distinct, non-integer-like header names are both present,
in capture order, in the Request built at send time. -/
theorem c1_headers_capture_witness :
    (xhrToRequest id ([("X-A", "1"), ("X-B", "2")].foldl
        (fun q kv => setRequestHeaderPatch q kv.1 kv.2)
        (openPatch initialPatch "GET" "https://example.com"))).headers =
      [("X-A", "1"), ("X-B", "2")] :=
  ((c1_headers_capture id initialPatch "GET" "https://example.com"
      [("X-A", "1"), ("X-B", "2")]).2.2.2.2.2.2.2 (by decide)).2 (by decide)

/-- C2: evaluation of the streaming loop at a concrete failing input.  With
initial capacity 10 and chunks of 8, 8 and 2 bytes the loop finishes without
an exception, yet the published `responseBuffer` is NOT the concatenation of
the chunks: the third append grows again from the stale `buffer` local and
the second chunk's bytes are replaced by zeros, because `buffer` is never
rebound to the grown buffer. -/
theorem c2_growth_loses_data :
    (streamRun growthResponse).2 = true ∧
    (streamRun growthResponse).1.respBuffer =
      some (List.replicate 8 1 ++ List.replicate 8 0 ++ [3, 3]) ∧
    (streamRun growthResponse).1.respBuffer ≠
      some (List.replicate 8 1 ++ List.replicate 8 2 ++ [3, 3]) := by
  refine ⟨?_, ?_, ?_⟩
  · decide
  · decide
  · decide

/-- C3: on send, hooks are trialed strictly in insertion order; when every
hook returns none the original send runs with the original body, and the
first hook returning a responder stops the trial — the hooks after it are
never called and the outcome starts the emulation state machine instead of
the original send. -/
theorem c3_send_dispatch {ρ α β : Type} (hooks pre post : List (String × (ρ → Option α)))
    (n : String) (h : ρ → Option α) (req : ρ) (body : β) (r : α)
    (hall : ∀ p ∈ hooks, p.2 req = none)
    (hpre : ∀ p ∈ pre, p.2 req = none) (hr : h req = some r) :
    sendDispatch hooks req body = (SendOutcome.original body, hooks.map Prod.fst) ∧
    sendDispatch (pre ++ (n, h) :: post) req body =
      (SendOutcome.hooked n r, pre.map Prod.fst ++ [n]) :=
  ⟨sendDispatch_all_none hooks req body hall,
   sendDispatch_first_some pre post n h req body r hpre hr⟩

/-- C3 witness: three hooks with only the second returning a responder — the
first two are called, the third is not; and two declining hooks let the
original send run with the original body. -/
theorem c3_send_dispatch_witness :
    sendDispatch ([("h1", hookNone)] ++ ("h2", hookSome) :: [("h3", hookNone)])
        (0 : Nat) (0 : Nat) = (SendOutcome.hooked "h2" 7, ["h1", "h2"]) ∧
    sendDispatch [("h1", hookNone), ("h3", hookNone)] (0 : Nat) (0 : Nat) =
      (SendOutcome.original 0, ["h1", "h3"]) := by
  have hall : ∀ p ∈ ([("h1", hookNone), ("h3", hookNone)] :
      List (String × (Nat → Option Nat))), p.2 0 = none := by
    intro p hp
    rcases List.mem_cons.mp hp with rfl | hp
    · rfl
    · rcases List.mem_cons.mp hp with rfl | hp
      · rfl
      · exact absurd hp (List.not_mem_nil p)
  have hpre : ∀ p ∈ ([("h1", hookNone)] :
      List (String × (Nat → Option Nat))), p.2 0 = none := by
    intro p hp
    rcases List.mem_cons.mp hp with rfl | hp
    · rfl
    · exact absurd hp (List.not_mem_nil p)
  have h := c3_send_dispatch [("h1", hookNone), ("h3", hookNone)] [("h1", hookNone)]
    [("h3", hookNone)] "h2" hookSome 0 0 7 hall hpre rfl
  exact ⟨h.2, h.1⟩

/-- C4: inserting under an already-present name with onExists=error throws an
error naming the hook before `hooks.set` runs, so the registry is unchanged:
the prior handler stays registered under that name and subsequent dispatch
behaves exactly as before the failed insert. -/
theorem c4_insert_error {ρ σ β : Type} (reg : List (String × (ρ → Option σ)))
    (name : String) (h h0 : ρ → Option σ) (req : ρ) (body : β)
    (hmem : lookupHook reg name = some h0) :
    insertXhrHookRun reg name h OnExists.error =
      (some ("Hook with name \"" ++ name ++ "\" already exists."), reg) ∧
    lookupHook (insertXhrHookRun reg name h OnExists.error).2 name = some h0 ∧
    sendDispatch (insertXhrHookRun reg name h OnExists.error).2 req body =
      sendDispatch reg req body := by
  have hany : reg.any (fun p => p.1 == name) = true := by
    unfold lookupHook at hmem
    cases hf : reg.find? (fun p => p.1 == name) with
    | none =>
      rw [hf] at hmem
      simp at hmem
    | some e =>
      have hp : (e.1 == name) = true := by
        have h2 := List.find?_some hf
        simpa using h2
      exact List.any_eq_true.mpr ⟨e, List.mem_of_find?_eq_some hf, hp⟩
  have heq : insertXhrHookRun reg name h OnExists.error =
      (some ("Hook with name \"" ++ name ++ "\" already exists."), reg) := by
    unfold insertXhrHookRun
    rw [if_pos hany]
  refine ⟨heq, ?_, ?_⟩
  · rw [heq]
    exact hmem
  · rw [heq]

/-- C4 witness: a concrete failed insert under an existing name. -/
theorem c4_insert_error_witness :
    insertXhrHookRun [("a", hookNone)] "a" hookSome OnExists.error =
      (some "Hook with name \"a\" already exists.", [("a", hookNone)]) :=
  (c4_insert_error [("a", hookNone)] "a" hookSome hookNone 0 (0 : Nat) rfl).1

/-- C5: on successful completion of a hooked response stream, the dispatched
events are exactly the initial readystatechange and loadstart, the loop's
readystatechange/progress events, and then load, readystatechange and loadend
in that order; readyState is 4, responseUrl comes from the response's
resolved url, and the internal buffer is trimmed to exactly the final
offset. -/
theorem c5_success_completion (p : Patch) (response : MResponse)
    (hok : (streamRun response).2 = true) :
    (startXhr p (Except.ok response)).2 =
      [Ev.readystatechange, Ev.loadstart] ++ (streamRun response).1.events ++
        [Ev.load, Ev.readystatechange, Ev.loadend] ∧
    (∀ e ∈ (streamRun response).1.events,
      e = Ev.readystatechange ∨ ∃ n, e = Ev.progress n) ∧
    (startXhr p (Except.ok response)).1.readyState = some 4 ∧
    (startXhr p (Except.ok response)).1.responseUrl = some response.url ∧
    (startXhr p (Except.ok response)).1.responseBufferInternal =
      (curContents (streamRun response).1).map
        (fun d => d.take (streamRun response).1.offset) ∧
    (∀ l, (startXhr p (Except.ok response)).1.responseBufferInternal = some l →
      l.length = (streamRun response).1.offset) := by
  have hinv := streamRun_inv response
  simp only [startXhr, hok, if_true]
  refine ⟨by trivial, hinv.1, by trivial, by trivial, by trivial, ?_⟩
  intro l hl
  cases hcc : curContents (streamRun response).1 with
  | none =>
    rw [hcc] at hl
    exact absurd hl (by simp)
  | some d =>
    rw [hcc] at hl
    have h2 := hinv.2
    rw [hcc] at h2
    have hoff : (streamRun response).1.offset ≤ d.length := h2.1
    have hl' : some (d.take (streamRun response).1.offset) = some l := hl
    injection hl' with hl'
    rw [← hl', List.length_take]
    omega

/-- C5 witness: a concrete successful stream reaches readyState 4 with the
response's url published. -/
theorem c5_success_completion_witness :
    (streamRun midStreamResponse).2 = true ∧
    (startXhr initialPatch (Except.ok midStreamResponse)).1.readyState = some 4 ∧
    (startXhr initialPatch (Except.ok midStreamResponse)).1.responseUrl =
      some "https://example.com/hi" :=
  ⟨by decide,
   (c5_success_completion initialPatch midStreamResponse (by decide)).2.2.1,
   (c5_success_completion initialPatch midStreamResponse (by decide)).2.2.2.1⟩

/-- C6: when the responder fails (including cancellation) nothing is thrown
to the caller of send — `startXhr` returns normally — readyState becomes 4,
the dispatched events are exactly readystatechange (from opening), then
error, then readystatechange, and neither load nor loadend is ever
dispatched. -/
theorem c6_responder_failure (p : Patch) :
    startXhr p (Except.error ()) =
      ({ p with readyState := some 4 },
        [Ev.readystatechange, Ev.error, Ev.readystatechange]) ∧
    Ev.load ∉ (startXhr p (Except.error ())).2 ∧
    Ev.loadend ∉ (startXhr p (Except.error ())).2 := by
  refine ⟨rfl, ?_, ?_⟩
  · show Ev.load ∉ [Ev.readystatechange, Ev.error, Ev.readystatechange]
    decide
  · show Ev.loadend ∉ [Ev.readystatechange, Ev.error, Ev.readystatechange]
    decide

/-- C7: response materialization: for declared type "document" the bytes are
decoded and parsed as XML, a parse failure (thrown) yields null and a parse
success yields the document; for "json" a parse failure yields null; an
unrecognized declared type yields null; a decoding exception on any decoding
path yields null.  The getter is a total function — nothing propagates to the
caller. -/
theorem c7_response_materialization {δ γ : Type}
    (decode : List Nat → Except Unit String)
    (parseXml : String → Except Unit δ) (parseJson : String → Except Unit γ)
    (ty : String) (p : Patch) (bytes : List Nat) (t : String) (d : δ)
    (hbuf : p.responseBuffer = some bytes) :
    (decode bytes = Except.ok t → parseXml t = Except.error () →
      responseGetter decode parseXml parseJson "document" p = RespValue.null) ∧
    (decode bytes = Except.ok t → parseXml t = Except.ok d →
      responseGetter decode parseXml parseJson "document" p = RespValue.document d) ∧
    (decode bytes = Except.ok t → parseJson t = Except.error () →
      responseGetter decode parseXml parseJson "json" p = RespValue.null) ∧
    (ty ≠ "" → ty ≠ "text" → ty ≠ "arraybuffer" → ty ≠ "blob" → ty ≠ "document" →
      ty ≠ "json" → responseGetter decode parseXml parseJson ty p = RespValue.null) ∧
    (decode bytes = Except.error () →
      (ty = "" ∨ ty = "text" ∨ ty = "document" ∨ ty = "json") →
      responseGetter decode parseXml parseJson ty p = RespValue.null) := by
  refine ⟨?_, ?_, ?_, ?_, ?_⟩
  · intro hdec hxml
    simp [responseGetter, hbuf, hdec, hxml, Except.map]
  · intro hdec hxml
    simp [responseGetter, hbuf, hdec, hxml, Except.map]
  · intro hdec hjson
    simp [responseGetter, hbuf, hdec, hjson, Except.map]
  · intro h1 h2 h3 h4 h5 h6
    simp [responseGetter, hbuf, h1, h2, h3, h4, h5, h6]
  · intro hdec hty
    rcases hty with rfl | rfl | rfl | rfl <;>
      simp [responseGetter, hbuf, hdec, Except.map]

/-- C7 witness: with a throwing XML parser the "document" read yields null,
and an unrecognized declared type yields null. -/
theorem c7_response_materialization_witness :
    responseGetter decodeOkX parseFailX parseFailX "document"
      { initialPatch with responseBuffer := some [72] } = RespValue.null ∧
    responseGetter decodeOkX parseFailX parseFailX "bogus"
      { initialPatch with responseBuffer := some [72] } = RespValue.null := by
  have h := c7_response_materialization decodeOkX parseFailX parseFailX "bogus"
    { initialPatch with responseBuffer := some [72] } [72] (decodeBytes [72]) () rfl
  exact ⟨h.1 rfl rfl,
    h.2.2.2.1 (by decide) (by decide) (by decide) (by decide) (by decide) (by decide)⟩

/-- C8 (amended): after every appended chunk, `responseBuffer` is exactly the
prefix `0..offset` of the buffer `responseBufferInternal` refers to and its
length never exceeds that buffer's length; after successful completion the
internal buffer is trimmed so the text view then reads exactly the valid
prefix.  (During streaming, however, the responseText getter decodes the
whole internal buffer — see the counterexample.) -/
theorem c8_prefix_invariant (response : MResponse) (p : Patch) :
    (∀ st ∈ chunkStates (initialChunkSt response) (response.body.getD []),
      ∃ d, curContents st = some d ∧ st.respBuffer = some (d.take st.offset) ∧
        (d.take st.offset).length ≤ d.length) ∧
    ((streamRun response).2 = true →
      (startXhr p (Except.ok response)).1.responseBufferInternal =
        (startXhr p (Except.ok response)).1.responseBuffer) := by
  constructor
  · intro st hst
    have hinv := chunkStates_inv (response.body.getD []) (initialChunkSt response)
      (stInv_initial response) st hst
    have hib := chunkStates_ibuf (response.body.getD []) (initialChunkSt response) st hst
    cases hcc : curContents st with
    | none =>
      exfalso
      cases hibv : st.ibuf with
      | none =>
        rw [hibv] at hib
        simp at hib
      | some b =>
        unfold curContents at hcc
        rw [hibv] at hcc
        cases b <;> simp at hcc
    | some d =>
      have h2 := hinv.2
      rw [hcc] at h2
      refine ⟨d, rfl, h2.2, ?_⟩
      rw [List.length_take]
      omega
  · intro hok
    have hinv := (streamRun_inv response).2
    simp only [startXhr, hok, if_true]
    cases hcc : curContents (streamRun response).1 with
    | none =>
      rw [hcc] at hinv
      simp [hinv.2]
    | some d =>
      rw [hcc] at hinv
      simp [hinv.2]

/-- C8 counterexample: at the concrete mid-stream state of
`midStreamResponse` the internal buffer holds "Hi" plus two bytes of
unwritten capacity, `responseBuffer` is the valid two-byte prefix, and the
responseText getter returns the decode of all four bytes — readers of the
text view observe the unwritten trailing capacity, not only the valid
prefix. -/
theorem c8_responseText_counterexample :
    curContents midStreamSt = some [72, 105, 0, 0] ∧
    midStreamSt.respBuffer = some [72, 105] ∧
    responseTextGetter decodeBytes midStreamPatch "" = decodeBytes [72, 105, 0, 0] ∧
    responseTextGetter decodeBytes midStreamPatch "" ≠ decodeBytes [72, 105] := by
  refine ⟨?_, ?_, ?_, ?_⟩
  · decide
  · decide
  · decide
  · decide

/-- C8 witness: for a concrete completed stream the trimmed internal buffer
coincides with the published prefix. -/
theorem c8_prefix_invariant_witness :
    (streamRun midStreamResponse).2 = true ∧
    (startXhr initialPatch (Except.ok midStreamResponse)).1.responseBufferInternal =
      (startXhr initialPatch (Except.ok midStreamResponse)).1.responseBuffer :=
  ⟨by decide, (c8_prefix_invariant midStreamResponse initialPatch).2 (by decide)⟩

/-- C9: installation is idempotent: starting from an unmarked surface, `n`
installation attempts (one per hook insertion) apply the patch set exactly
once and log `n - 1` already-hooked warnings; a further attempt on the marked
surface warns and leaves the surface unchanged. -/
theorem c9_install_idempotent (n : Nat) (hn : 1 ≤ n) :
    installTimes { marker := false, patchCount := 0 } n =
      ({ marker := true, patchCount := 1 }, n - 1) ∧
    hookXhrIfNeeded { marker := true, patchCount := 1 } =
      ({ marker := true, patchCount := 1 },
        some "XMLHttpRequest is already hooked, skipping.") := by
  obtain ⟨k, rfl⟩ : ∃ k, n = k + 1 := ⟨n - 1, by omega⟩
  refine ⟨?_, rfl⟩
  have h1 : hookXhrIfNeeded { marker := false, patchCount := 0 } =
      ({ marker := true, patchCount := 1 }, none) := rfl
  simp only [installTimes, h1]
  rw [installTimes_marked k { marker := true, patchCount := 1 } rfl]
  simp

/-- C9 witness: two insertions trigger two installation attempts; the patch
is applied once and one warning is logged. -/
theorem c9_install_idempotent_witness :
    installTimes { marker := false, patchCount := 0 } 2 =
      ({ marker := true, patchCount := 1 }, 1) :=
  (c9_install_idempotent 2 (by decide)).1

/-- C10: reopening an instance resets only the cancellation token, method,
url and headers; the emulated readyState, status, statusText, response,
responseBuffer, responseBufferInternal and responseUrl survive, and because
the patched getters prefer the emulated value, a later pass-through request
on the same instance still observes the stale synthetic values. -/
theorem c10_reopen_keeps_stale (p : Patch) (m u : String) (v : Nat) (sv : String)
    (native : Nat) (nativeS : String) :
    (p.readyState = some v → readyStateGetter (openPatch p m u) native = v) ∧
    (p.status = some v → statusGetter (openPatch p m u) native = v) ∧
    (p.responseUrl = some sv → responseURLGetter (openPatch p m u) nativeS = sv) ∧
    (openPatch p m u).readyState = p.readyState ∧
    (openPatch p m u).status = p.status ∧
    (openPatch p m u).statusText = p.statusText ∧
    (openPatch p m u).response = p.response ∧
    (openPatch p m u).responseBufferInternal = p.responseBufferInternal ∧
    (openPatch p m u).responseBuffer = p.responseBuffer ∧
    (openPatch p m u).responseUrl = p.responseUrl ∧
    (openPatch p m u).abortGen = p.abortGen + 1 ∧
    (openPatch p m u).method = some m ∧
    (openPatch p m u).url = some u ∧
    (openPatch p m u).headers = [] := by
  refine ⟨?_, ?_, ?_, rfl, rfl, rfl, rfl, rfl, rfl, rfl, rfl, rfl, rfl, rfl⟩
  · intro h
    simp [readyStateGetter, openPatch, h]
  · intro h
    simp [statusGetter, openPatch, h]
  · intro h
    simp [responseURLGetter, openPatch, h]

/-- C10 witness: an instance whose previous lifecycle set readyState 4 still
reports readyState 4 through the patched getter after reopening, shadowing
the native value 1. -/
theorem c10_reopen_keeps_stale_witness :
    readyStateGetter (openPatch { initialPatch with readyState := some 4 } "GET"
      "https://example.com") 1 = 4 :=
  (c10_reopen_keeps_stale { initialPatch with readyState := some 4 } "GET"
    "https://example.com" 4 "x" 1 "n").1 rfl

end XhrHook
